import Mathlib

/-!
Shallow embedding of the Battleship candidate-placement pruner
(`src/main.rs`) and proofs about its specification.

The Rust code works over `u8` values on a 5×5 board; every quantity
reachable from the inputs the theorems quantify over stays far below
256, so machine integers are modelled as `Nat` (a separate checked
model `ship_range_checked` captures the `u8` overflow behaviour where
error behaviour itself is at issue).  `Vec<u8>` becomes `List Nat`,
the per-ship-type store `Vec<Vec<u8>>` becomes `List (List Nat)`, and
the in-place `while`-loops of `process_miss` / `process_hit` become a
fuel-indexed tail-recursive function (`elimLoopFuel`), with the fuel
set to the list length exactly as the loop measure demands.
-/

set_option maxRecDepth 8192

/-- Board size (width and height); `const BOARD_SIZE: u8 = 5`. -/
def BOARD_SIZE : Nat := 5

/-- Construct a board position from its row and column parts (row major). -/
def pos_from_parts (row col : Nat) : Nat :=
  BOARD_SIZE * row + col

/-- Ship type (`enum ShipType`). -/
inductive ShipType
  | Patrol
  | Destroyer
  | Submarine
  | Battleship
  | Carrier
deriving DecidableEq, Repr

/-- Number of ship types (`NUM_SHIP_TYPES`). -/
def NUM_SHIP_TYPES : Nat := 5

/-- A list of all ship types (`SHIP_TYPES`). -/
def SHIP_TYPES : List ShipType :=
  [ShipType.Patrol, ShipType.Destroyer, ShipType.Submarine,
   ShipType.Battleship, ShipType.Carrier]

/-- Compute the ID (index into `SHIP_TYPES`) of the given ship type
(`stype_id`, via `iter().position`). -/
def stype_id (stype : ShipType) : Nat :=
  SHIP_TYPES.findIdx (fun t => t == stype)

/-- Compute the size of the given ship type (`ship_size`). -/
def ship_size : ShipType → Nat
  | ShipType.Patrol => 2
  | ShipType.Destroyer => 3
  | ShipType.Submarine => 3
  | ShipType.Battleship => 4
  | ShipType.Carrier => 5

/-- The number of columns the ship can be in oriented horizontally, or the
number of rows it can be in oriented vertically (`reduced_poscount`). -/
def reduced_poscount (shiptype : ShipType) : Nat :=
  BOARD_SIZE - ship_size shiptype + 1

/-- Computes the number of valid positions for the given ship type
(`num_positions`). -/
def num_positions (shiptype : ShipType) : Nat :=
  2 * reduced_poscount shiptype * BOARD_SIZE

/-- Compute the occupied squares for the given ship type and position ID
(`ship_range`).  Lower-numbered positions are horizontal (step 1 from the
start square), higher-numbered positions are vertical (step `BOARD_SIZE`). -/
def ship_range (shiptype : ShipType) (pos : Nat) : List Nat :=
  if pos < num_positions shiptype / 2 then
    (List.range (ship_size shiptype)).map (fun v =>
      pos_from_parts (pos / reduced_poscount shiptype)
        (pos % reduced_poscount shiptype) + 1 * v)
  else
    (List.range (ship_size shiptype)).map (fun v =>
      pos_from_parts ((pos - num_positions shiptype / 2) / BOARD_SIZE)
        ((pos - num_positions shiptype / 2) % BOARD_SIZE) + BOARD_SIZE * v)

/-- Check if the given ship positions overlap (`calc_has_overlap`). -/
def calc_has_overlap (ship1 : ShipType) (pos1 : Nat)
    (ship2 : ShipType) (pos2 : Nat) : Bool :=
  (ship_range ship1 pos1).any (fun p => (ship_range ship2 pos2).contains p)

/-- Generate the overlap cache (`gen_overlap_cache`): for each ordered pair
of ship types, a table indexed by the two position IDs. -/
def gen_overlap_cache : List (List (List (List Bool))) :=
  SHIP_TYPES.map (fun stype1 =>
    SHIP_TYPES.map (fun stype2 =>
      (List.range (num_positions stype1)).map (fun pos1 =>
        (List.range (num_positions stype2)).map (fun pos2 =>
          calc_has_overlap stype1 pos1 stype2 pos2))))

/-- Fast overlap checker using the provided cache (`has_overlap`).
Rust indexes the nested vectors directly; out-of-range indexing panics
there and is modelled by the (never reached, under the in-range
hypotheses) defaults of `getD`. -/
def has_overlap (ship1 : ShipType) (pos1 : Nat) (ship2 : ShipType) (pos2 : Nat)
    (cache : List (List (List (List Bool)))) : Bool :=
  ((((cache.getD (stype_id ship1) []).getD (stype_id ship2) []).getD pos1 []).getD
    pos2 false)

/-- Model of `Vec::swap_remove(idx)`: replace the element at `idx` with the
last element, then pop the last element.  Meaningful for `idx < l.length`. -/
def swapRemove (l : List Nat) (idx : Nat) : List Nat :=
  (l.set idx (l.getLastD 0)).dropLast

/-- Fuel-indexed model of the elimination `while`-loops of `process_miss`
and `process_hit`: scan from `idx`; an element satisfying `bad` is removed
by `swapRemove` (and the position is rescanned), otherwise the scan index
advances.  The loop's measure is `l.length - idx`, so that much fuel
suffices (proved below). -/
def elimLoopFuel (bad : Nat → Bool) : Nat → List Nat → Nat → List Nat
  | 0, l, _ => l
  | fuel + 1, l, idx =>
    if h : idx < l.length then
      if bad (l.get ⟨idx, h⟩) then
        elimLoopFuel bad fuel (swapRemove l idx) idx
      else
        elimLoopFuel bad fuel l (idx + 1)
    else l

/-- The elimination loop run from scan index 0 with sufficient fuel. -/
def elimLoop (bad : Nat → Bool) (l : List Nat) : List Nat :=
  elimLoopFuel bad l.length l 0

/-- The ship type stored at index `i` of `SHIP_TYPES` (the Rust code indexes
`SHIP_TYPES[stype_idx]`, which panics out of range; the default is never
reached for stores of length `NUM_SHIP_TYPES`). -/
def typeOfIdx (i : Nat) : ShipType :=
  SHIP_TYPES.getD i ShipType.Patrol

/-- Helper for `process_miss`: the loop over `stype_idx`, carrying the
current ship-type index. -/
def process_miss_from (pos : Nat) : Nat → List (List Nat) → List (List Nat)
  | _, [] => []
  | i, plist :: rest =>
    elimLoop (fun p => (ship_range (typeOfIdx i) p).contains pos) plist
      :: process_miss_from pos (i + 1) rest

/-- Apply the effect of a miss on the position lists (`process_miss`):
every ship type's list drops the placements covering `pos`. -/
def process_miss (pos_positions : List (List Nat)) (pos : Nat) :
    List (List Nat) :=
  process_miss_from pos 0 pos_positions

/-- Apply the effect of a hit on the given ship type (`process_hit`):
placements overlapping the hit are kept, the others are removed. -/
def process_hit (poslist : List Nat) (stype : ShipType) (pos : Nat) :
    List Nat :=
  elimLoop (fun p => !((ship_range stype p).contains pos)) poslist

/-- Apply the effect of a known move result on the list of possible
positions (`apply_move`). -/
def apply_move (pos_positions : List (List Nat))
    (move_val : Nat × Option ShipType) : List (List Nat) :=
  match move_val.2 with
  | none => process_miss pos_positions move_val.1
  | some stype =>
    pos_positions.set (stype_id stype)
      (process_hit (pos_positions.getD (stype_id stype) []) stype move_val.1)

/-- The initial list of possible positions per ship type, as built in
`main`: each type's list is `0..num_positions(type)`. -/
def init_positions : List (List Nat) :=
  SHIP_TYPES.map (fun stype => List.range (num_positions stype))

/-- Checked `u8` addition: Rust (debug) panics on overflow, modelled as
`none`. -/
def chAdd (a b : Nat) : Option Nat :=
  if a + b < 256 then some (a + b) else none

/-- Checked `u8` multiplication: Rust (debug) panics on overflow, modelled
as `none`. -/
def chMul (a b : Nat) : Option Nat :=
  if a * b < 256 then some (a * b) else none

/-- Checked-`u8` model of `pos_from_parts`. -/
def pos_from_parts_checked (row col : Nat) : Option Nat :=
  (chMul BOARD_SIZE row).bind (fun m => chAdd m col)

/-- Checked-`u8` model of `ship_range`: identical control flow, but each
`u8` arithmetic operation that can overflow is checked; `none` models a
panic.  Used to settle claims about error behaviour on out-of-range
position IDs. -/
def ship_range_checked (shiptype : ShipType) (pos : Nat) : Option (List Nat) :=
  if pos < num_positions shiptype / 2 then
    (pos_from_parts_checked (pos / reduced_poscount shiptype)
        (pos % reduced_poscount shiptype)).bind (fun start =>
      (List.range (ship_size shiptype)).mapM (fun v =>
        (chMul 1 v).bind (fun s => chAdd start s)))
  else
    (pos_from_parts_checked ((pos - num_positions shiptype / 2) / BOARD_SIZE)
        ((pos - num_positions shiptype / 2) % BOARD_SIZE)).bind (fun start =>
      (List.range (ship_size shiptype)).mapM (fun v =>
        (chMul BOARD_SIZE v).bind (fun s => chAdd start s)))

/-- Removing by `swapRemove` shortens the list by one. -/
theorem length_swapRemove (l : List Nat) (idx : Nat) :
    (swapRemove l idx).length = l.length - 1 := by
  simp [swapRemove]

/-- Decomposition of `swapRemove` for an in-range index. -/
theorem swapRemove_eq (l : List Nat) (idx : Nat) (h : idx < l.length) :
    swapRemove l idx
      = l.take idx ++ (l.getLastD 0 :: l.drop (idx + 1)).dropLast := by
  unfold swapRemove
  rw [List.set_eq_take_append_cons_drop, if_pos h, List.dropLast_append_cons]

/-- The prefix before the scan position is untouched by `swapRemove`. -/
theorem take_swapRemove (l : List Nat) (idx : Nat) (h : idx < l.length) :
    (swapRemove l idx).take idx = l.take idx := by
  rw [swapRemove_eq l idx h, List.take_append_of_le_length, List.take_take,
    Nat.min_self]
  simp
  omega

/-- The suffix from the scan position after `swapRemove`. -/
theorem drop_swapRemove (l : List Nat) (idx : Nat) (h : idx < l.length) :
    (swapRemove l idx).drop idx
      = (l.getLastD 0 :: l.drop (idx + 1)).dropLast := by
  rw [swapRemove_eq l idx h, List.drop_left']
  simp
  omega

/-- As a multiset, `swapRemove` drops exactly the scanned element: the
suffix from the scan position is a permutation of the old suffix without
that element. -/
theorem perm_drop_swapRemove (l : List Nat) (idx : Nat) (h : idx < l.length) :
    ((swapRemove l idx).drop idx).Perm (l.drop (idx + 1)) := by
  rw [drop_swapRemove l idx h]
  by_cases hd : l.drop (idx + 1) = []
  · simp [hd]
  · rw [List.dropLast_cons_of_ne_nil hd]
    have hl : l ≠ [] := List.ne_nil_of_length_pos (by omega)
    have hv : l.getLastD 0 = (l.drop (idx + 1)).getLast hd := by
      rw [List.getLastD_eq_getLast?, List.getLast?_eq_getLast l hl,
        Option.getD_some, List.getLast_drop]
    rw [hv]
    have h2 : (l.drop (idx + 1)).dropLast ++ [(l.drop (idx + 1)).getLast hd]
        = l.drop (idx + 1) := List.dropLast_concat_getLast hd
    conv_rhs => rw [← h2]
    exact (List.perm_append_singleton _ _).symm

/-- Invariant of the elimination loop: with fuel at least the measure
`l.length - idx`, the loop's result is, up to permutation, the untouched
prefix followed by the suffix with every `bad` element removed. -/
theorem elimLoopFuel_perm (bad : Nat → Bool) :
    ∀ (fuel : Nat) (l : List Nat) (idx : Nat), l.length - idx ≤ fuel →
      (elimLoopFuel bad fuel l idx).Perm
        (l.take idx ++ (l.drop idx).filter (fun x => !bad x)) := by
  intro fuel
  induction fuel with
  | zero =>
    intro l idx hfuel
    have hle : l.length ≤ idx := by omega
    simp [elimLoopFuel, List.take_of_length_le hle, List.drop_eq_nil_of_le hle]
  | succ fuel ih =>
    intro l idx hfuel
    by_cases h : idx < l.length
    · rw [elimLoopFuel, dif_pos h]
      by_cases hb : bad (l.get ⟨idx, h⟩)
      · rw [if_pos hb]
        have hm : (swapRemove l idx).length - idx ≤ fuel := by
          rw [length_swapRemove]; omega
        refine (ih (swapRemove l idx) idx hm).trans ?_
        rw [take_swapRemove l idx h]
        refine List.Perm.append_left _ ?_
        refine (List.Perm.filter _ (perm_drop_swapRemove l idx h)).trans ?_
        rw [List.drop_eq_getElem_cons h, List.filter_cons_of_neg]
        simp only [List.get_eq_getElem] at hb
        simp [hb]
      · rw [if_neg hb]
        have hm : l.length - (idx + 1) ≤ fuel := by omega
        refine (ih l (idx + 1) hm).trans ?_
        simp only [List.get_eq_getElem] at hb
        have ht : l.take (idx + 1) = l.take idx ++ [l.get ⟨idx, h⟩] := by
          rw [List.take_succ, List.getElem?_eq_getElem h]
          rfl
        rw [List.drop_eq_getElem_cons h, List.filter_cons_of_pos (by simp [hb]),
          ht, List.append_assoc, List.singleton_append, List.get_eq_getElem]
    · rw [elimLoopFuel, dif_neg h]
      have hle : l.length ≤ idx := by omega
      simp [List.take_of_length_le hle, List.drop_eq_nil_of_le hle]

/-- The elimination loop computes, up to permutation, the filter keeping
exactly the elements that are not `bad`. -/
theorem elimLoop_perm (bad : Nat → Bool) (l : List Nat) :
    (elimLoop bad l).Perm (l.filter (fun x => !bad x)) := by
  simpa using elimLoopFuel_perm bad l.length l 0 (by omega)

/-- Boolean containment on `List Nat` agrees with membership. -/
theorem contains_iff_mem (l : List Nat) (a : Nat) : l.contains a = true ↔ a ∈ l := by
  simp [List.contains]

/-- Membership in the elimination loop's output: exactly the non-`bad`
elements of the input remain. -/
theorem mem_elimLoop (bad : Nat → Bool) (l : List Nat) (p : Nat) :
    p ∈ elimLoop bad l ↔ p ∈ l ∧ bad p = false := by
  rw [(elimLoop_perm bad l).mem_iff, List.mem_filter]
  simp

/-- The ID of every ship type is an index into `SHIP_TYPES`. -/
theorem stype_id_lt (stype : ShipType) : stype_id stype < NUM_SHIP_TYPES := by
  cases stype <;> decide

/-- Looking up a ship type's ID in `SHIP_TYPES` returns the ship type. -/
theorem typeOfIdx_stype_id (stype : ShipType) : typeOfIdx (stype_id stype) = stype := by
  cases stype <;> rfl

/-- Every cell of an in-range placement lies on the board. -/
theorem ship_range_bound (stype : ShipType) :
    ∀ pos, pos < num_positions stype →
      ∀ c ∈ ship_range stype pos, c < BOARD_SIZE * BOARD_SIZE := by
  cases stype <;> decide

/-- Sanity check relating the checked-`u8` model of `ship_range` to the
`Nat` model: they agree on every in-range position ID (hence no `u8`
overflow/panic is reachable there, and `Nat` faithfully models the Rust
arithmetic on in-range data). -/
theorem ship_range_checked_agrees (stype : ShipType) :
    ∀ pos, pos < num_positions stype →
      ship_range_checked stype pos = some (ship_range stype pos) := by
  cases stype <;> decide

/-- `process_miss_from` preserves the number of per-type lists. -/
theorem length_process_miss_from (pos : Nat) :
    ∀ (i : Nat) (store : List (List Nat)),
      (process_miss_from pos i store).length = store.length := by
  intro i store
  induction store generalizing i with
  | nil => rfl
  | cons plist rest ih => simp [process_miss_from, ih]

/-- Componentwise description of `process_miss_from`: list `j` of the
output is list `j` of the input run through the elimination loop for the
ship type at index `i + j`. -/
theorem getElem?_process_miss_from (pos : Nat) :
    ∀ (i j : Nat) (store : List (List Nat)),
      (process_miss_from pos i store)[j]?
        = store[j]?.map (fun l =>
            elimLoop (fun p => (ship_range (typeOfIdx (i + j)) p).contains pos) l) := by
  intro i j store
  induction store generalizing i j with
  | nil => simp [process_miss_from]
  | cons plist rest ih =>
    cases j with
    | zero => simp [process_miss_from]
    | succ j =>
      simp only [process_miss_from, List.getElem?_cons_succ, ih (i + 1) j]
      have : i + 1 + j = i + (j + 1) := by omega
      rw [this]

/-- Componentwise description of `process_miss`. -/
theorem getElem?_process_miss (store : List (List Nat)) (pos j : Nat) :
    (process_miss store pos)[j]?
      = store[j]?.map (fun l =>
          elimLoop (fun p => (ship_range (typeOfIdx j) p).contains pos) l) := by
  have h := getElem?_process_miss_from pos 0 j store
  simpa [process_miss] using h

/-- Stepping the fuel of the elimination loop beyond the measure
`l.length - idx` does not change the result. -/
theorem elimLoopFuel_step (bad : Nat → Bool) :
    ∀ (fuel : Nat) (l : List Nat) (idx : Nat), l.length - idx ≤ fuel →
      elimLoopFuel bad (fuel + 1) l idx = elimLoopFuel bad fuel l idx := by
  intro fuel
  induction fuel with
  | zero =>
    intro l idx hfuel
    have h : ¬ idx < l.length := by omega
    simp only [elimLoopFuel, dif_neg h]
  | succ fuel ih =>
    intro l idx hfuel
    by_cases h : idx < l.length
    · rw [elimLoopFuel, dif_pos h]
      conv_rhs => rw [elimLoopFuel, dif_pos h]
      by_cases hb : bad (l.get ⟨idx, h⟩)
      · rw [if_pos hb, if_pos hb]
        exact ih (swapRemove l idx) idx (by rw [length_swapRemove]; omega)
      · rw [if_neg hb, if_neg hb]
        exact ih l (idx + 1) (by omega)
    · rw [elimLoopFuel, dif_neg h]
      conv_rhs => rw [elimLoopFuel, dif_neg h]

/-- C1 (part of the proof of the miss claim): a miss at `pos` leaves, in
every ship type's list, exactly the placements not covering `pos`. -/
theorem process_miss_mem (store : List (List Nat)) (pos j p : Nat) :
    p ∈ (process_miss store pos).getD j []
      ↔ p ∈ store.getD j [] ∧ ¬ pos ∈ ship_range (typeOfIdx j) p := by
  rw [List.getD_eq_getElem?_getD, List.getD_eq_getElem?_getD,
    getElem?_process_miss]
  cases hsj : store[j]? with
  | none => simp
  | some l => simp [mem_elimLoop, List.contains]

/-- C1: for every on-board position `pos` and every candidate store (of
the standard shape, one list per ship type), applying a miss move
`(pos, none)` removes from every ship type's candidate list exactly the
placement indices whose occupied-cell list contains `pos` and keeps all
others; in particular, on the freshly initialized store (board size 5), a
miss at position 0 shrinks Patrol's candidate list from 40 elements to
exactly 38. -/
theorem C1_miss_semantics (store : List (List Nat)) (pos : Nat)
    (hpos : pos < BOARD_SIZE * BOARD_SIZE)
    (hlen : store.length = NUM_SHIP_TYPES) :
    (∀ j, j < NUM_SHIP_TYPES → ∀ p,
        (p ∈ (apply_move store (pos, none)).getD j []
          ↔ p ∈ store.getD j [] ∧ ¬ pos ∈ ship_range (typeOfIdx j) p))
      ∧ (init_positions.getD 0 []).length = 40
      ∧ ((apply_move init_positions (0, none)).getD 0 []).length = 38 := by
  refine ⟨fun j hj p => ?_, by decide, by decide⟩
  exact process_miss_mem store pos j p

/-- Witness for C1 at the concrete miss `(0, none)` on the initial store:
placement 0 of Patrol covers cell 0, so it is eliminated. -/
theorem C1_miss_semantics_witness :
    (¬ 0 ∈ (apply_move init_positions (0, none)).getD 0 [])
      ∧ ((apply_move init_positions (0, none)).getD 0 []).length = 38 := by
  have h := C1_miss_semantics init_positions 0 (by decide) (by decide)
  refine ⟨fun hmem => ?_, h.2.2⟩
  have := (h.1 0 (by decide) 0).mp hmem
  exact this.2 (by decide)

/-- C2: for every ship type `t`, every on-board position `pos` and every
standard-shape candidate store, applying a hit move `(pos, some t)`
leaves in `t`'s candidate list exactly the placement indices whose
occupied-cell list contains `pos`. -/
theorem C2_hit_semantics (store : List (List Nat)) (stype : ShipType)
    (pos : Nat) (hpos : pos < BOARD_SIZE * BOARD_SIZE)
    (hlen : store.length = NUM_SHIP_TYPES) :
    ∀ p, p ∈ (apply_move store (pos, some stype)).getD (stype_id stype) []
      ↔ p ∈ store.getD (stype_id stype) [] ∧ pos ∈ ship_range stype p := by
  intro p
  have hlt : stype_id stype < store.length := by
    rw [hlen]; exact stype_id_lt stype
  show p ∈ (store.set (stype_id stype) _).getD (stype_id stype) [] ↔ _
  rw [List.getD_eq_getElem?_getD, List.getElem?_set_self hlt,
    Option.getD_some, process_hit, mem_elimLoop]
  simp [List.contains]

/-- Witness for C2: a hit `(0, some Patrol)` on the initial store keeps
Patrol placement 0 (cells `[0, 1]`) and drops Patrol placement 1. -/
theorem C2_hit_semantics_witness :
    (0 ∈ (apply_move init_positions (0, some ShipType.Patrol)).getD
        (stype_id ShipType.Patrol) [])
      ∧ ¬ 1 ∈ (apply_move init_positions (0, some ShipType.Patrol)).getD
        (stype_id ShipType.Patrol) [] := by
  have h := C2_hit_semantics init_positions ShipType.Patrol 0 (by decide)
    (by decide)
  constructor
  · exact (h 0).mpr (by decide)
  · intro hmem
    have := (h 1).mp hmem
    exact absurd this.2 (by decide)

/-- C3: applying a hit move `(pos, some t)` leaves the candidate list of
every ship type other than `t` completely unchanged (literally equal, so
in particular same cardinality and same members). -/
theorem C3_hit_frame (store : List (List Nat)) (stype : ShipType)
    (pos j : Nat) (hlen : store.length = NUM_SHIP_TYPES)
    (hj : j ≠ stype_id stype) :
    (apply_move store (pos, some stype)).getD j [] = store.getD j [] := by
  show (store.set (stype_id stype) _).getD j [] = _
  rw [List.getD_eq_getElem?_getD, List.getElem?_set_ne (Ne.symm hj),
    List.getD_eq_getElem?_getD]

/-- Witness for C3: a hit on Patrol leaves Destroyer's list (index 1)
unchanged. -/
theorem C3_hit_frame_witness :
    (apply_move init_positions (0, some ShipType.Patrol)).getD 1 []
      = init_positions.getD 1 [] :=
  C3_hit_frame init_positions ShipType.Patrol 0 1 (by decide) (by decide)

/-- C6: every move application only shrinks each ship type's candidate
list: any element of a component of the store after `apply_move` was in
that component before. -/
theorem C6_monotonic_shrink (store : List (List Nat))
    (mv : Nat × Option ShipType) (j x : Nat)
    (hlen : store.length = NUM_SHIP_TYPES)
    (hx : x ∈ (apply_move store mv).getD j []) :
    x ∈ store.getD j [] := by
  obtain ⟨pos, oship⟩ := mv
  cases oship with
  | none =>
    exact ((process_miss_mem store pos j x).mp hx).1
  | some stype =>
    by_cases hj : j = stype_id stype
    · subst hj
      have hlt : stype_id stype < store.length := by
        rw [hlen]; exact stype_id_lt stype
      rw [show apply_move store (pos, some stype)
            = store.set (stype_id stype)
                (process_hit (store.getD (stype_id stype) []) stype pos)
          from rfl,
        List.getD_eq_getElem?_getD, List.getElem?_set_self hlt,
        Option.getD_some, process_hit, mem_elimLoop] at hx
      exact hx.1
    · rw [show apply_move store (pos, some stype)
            = store.set (stype_id stype)
                (process_hit (store.getD (stype_id stype) []) stype pos)
          from rfl,
        List.getD_eq_getElem?_getD, List.getElem?_set_ne (Ne.symm hj),
        ← List.getD_eq_getElem?_getD] at hx
      exact hx

/-- Witness for C6 at the concrete miss `(3, none)` on the initial store:
Patrol placement 5 survives the miss and was present initially. -/
theorem C6_monotonic_shrink_witness :
    5 ∈ init_positions.getD 0 [] :=
  C6_monotonic_shrink init_positions (3, none) 0 5 (by decide) (by decide)

/-- C10: the elimination loops of `process_miss` and `process_hit`
(modelled by `elimLoopFuel`, with an arbitrary removal predicate `bad`
covering both instantiations) terminate: any fuel at least the measure
`l.length - idx` yields the same result as the measure itself, because
every iteration either advances the scan index or strictly shrinks the
list by `swapRemove`. -/
theorem C10_elim_loop_terminates (bad : Nat → Bool) (l : List Nat)
    (idx : Nat) :
    ∀ fuel, l.length - idx ≤ fuel →
      elimLoopFuel bad fuel l idx = elimLoopFuel bad (l.length - idx) l idx := by
  intro fuel
  induction fuel with
  | zero =>
    intro hfuel
    have h0 : l.length - idx = 0 := by omega
    rw [h0]
  | succ fuel ih =>
    intro hfuel
    by_cases hm : l.length - idx = fuel + 1
    · rw [hm]
    · rw [elimLoopFuel_step bad fuel l idx (by omega)]
      exact ih (by omega)

/-- Witness for C10 on the Patrol miss predicate at position 0: fuel 7
and the measure fuel 2 agree on a two-element list. -/
theorem C10_elim_loop_terminates_witness :
    elimLoopFuel (fun p => (ship_range ShipType.Patrol p).contains 0) 7
        [0, 1] 0
      = elimLoopFuel (fun p => (ship_range ShipType.Patrol p).contains 0)
        ([0, 1].length - 0) [0, 1] 0 :=
  C10_elim_loop_terminates (fun p => (ship_range ShipType.Patrol p).contains 0)
    [0, 1] 0 7 (by decide)

/-- If no element of the list satisfies the removal predicate, the
elimination loop leaves the list unchanged. -/
theorem elimLoopFuel_id (bad : Nat → Bool) :
    ∀ (fuel : Nat) (l : List Nat) (idx : Nat), (∀ x ∈ l, bad x = false) →
      elimLoopFuel bad fuel l idx = l := by
  intro fuel
  induction fuel with
  | zero => intro l idx _; rfl
  | succ fuel ih =>
    intro l idx h
    by_cases hlt : idx < l.length
    · rw [elimLoopFuel, dif_pos hlt,
        if_neg (by rw [h (l.get ⟨idx, hlt⟩) (List.get_mem l idx hlt)]; decide)]
      exact ih l (idx + 1) h
    · rw [elimLoopFuel, dif_neg hlt]

/-- Specialisation of `elimLoopFuel_id` to the full loop. -/
theorem elimLoop_id (bad : Nat → Bool) (l : List Nat)
    (h : ∀ x ∈ l, bad x = false) : elimLoop bad l = l :=
  elimLoopFuel_id bad l.length l 0 h

/-- Lookup in a table built as `map` over `range` returns the generating
function's value at any in-range index. -/
theorem getD_map_range {α : Type} (f : Nat → α) (n i : Nat) (d : α)
    (h : i < n) : (((List.range n).map f).getD i d) = f i := by
  rw [List.getD_eq_getElem?_getD, List.getElem?_map, List.getElem?_range h]
  rfl

/-- Lookup at `stype_id stype` in a table built as `map` over `SHIP_TYPES`
returns the generating function's value at `stype`. -/
theorem getD_map_ships {α : Type} (f : ShipType → α) (d : α)
    (stype : ShipType) : ((SHIP_TYPES.map f).getD (stype_id stype) d) = f stype := by
  cases stype <;> rfl

/-- C4: for every ship type, the in-range placement indices produce
pairwise-distinct cell-sets, each of exactly `ship_size` cells, with every
cell within board bounds (below `BOARD_SIZE * BOARD_SIZE`). -/
theorem C4_placement_enumeration (stype : ShipType) :
    (∀ i, i < num_positions stype →
        (ship_range stype i).length = ship_size stype
          ∧ ∀ c ∈ ship_range stype i, c < BOARD_SIZE * BOARD_SIZE)
      ∧ (∀ i, i < num_positions stype → ∀ j, j < num_positions stype →
          i ≠ j →
          (ship_range stype i).toFinset ≠ (ship_range stype j).toFinset) := by
  cases stype <;> exact ⟨by decide, by decide⟩

/-- Witness for C4 at Patrol, indices 0 and 1. -/
theorem C4_placement_enumeration_witness :
    ((ship_range ShipType.Patrol 0).length = ship_size ShipType.Patrol
        ∧ ∀ c ∈ ship_range ShipType.Patrol 0, c < BOARD_SIZE * BOARD_SIZE)
      ∧ (ship_range ShipType.Patrol 0).toFinset
          ≠ (ship_range ShipType.Patrol 1).toFinset :=
  ⟨(C4_placement_enumeration ShipType.Patrol).1 0 (by decide),
   (C4_placement_enumeration ShipType.Patrol).2 0 (by decide) 1 (by decide)
     (by decide)⟩

/-- C5: the precomputed overlap table queried through `has_overlap` agrees
with the direct intersection test `calc_has_overlap` on every ordered pair
of ship types and every pair of in-range placement indices. -/
theorem C5_overlap_cache_correct (ship1 ship2 : ShipType) (pos1 pos2 : Nat)
    (h1 : pos1 < num_positions ship1) (h2 : pos2 < num_positions ship2) :
    has_overlap ship1 pos1 ship2 pos2 gen_overlap_cache
      = calc_has_overlap ship1 pos1 ship2 pos2 := by
  unfold has_overlap gen_overlap_cache
  rw [getD_map_ships, getD_map_ships, getD_map_range _ _ _ _ h1,
    getD_map_range _ _ _ _ h2]

/-- Witness for C5 at Patrol placement 0 against Carrier placement 0. -/
theorem C5_overlap_cache_correct_witness :
    has_overlap ShipType.Patrol 0 ShipType.Carrier 0 gen_overlap_cache
      = calc_has_overlap ShipType.Patrol 0 ShipType.Carrier 0 :=
  C5_overlap_cache_correct ShipType.Patrol ShipType.Carrier 0 0 (by decide)
    (by decide)

/-- C9: indices below `num_positions/2` produce a same-row cell list of
consecutive positions (consecutive columns), and in-range indices at or
above the half produce a same-column cell list stepping by `BOARD_SIZE`
(consecutive rows). -/
theorem C9_half_split (stype : ShipType) :
    ∀ i, i < num_positions stype →
      (i < num_positions stype / 2 →
        (∀ c ∈ ship_range stype i,
            c / BOARD_SIZE = (ship_range stype i).headD 0 / BOARD_SIZE)
          ∧ ship_range stype i
              = (List.range (ship_size stype)).map
                  (fun v => (ship_range stype i).headD 0 + v))
      ∧ (num_positions stype / 2 ≤ i →
        (∀ c ∈ ship_range stype i,
            c % BOARD_SIZE = (ship_range stype i).headD 0 % BOARD_SIZE)
          ∧ ship_range stype i
              = (List.range (ship_size stype)).map
                  (fun v => (ship_range stype i).headD 0 + BOARD_SIZE * v)) := by
  cases stype <;> decide

/-- Witness for C9: horizontal at Patrol index 3, vertical at Patrol
index 20. -/
theorem C9_half_split_witness :
    (∀ c ∈ ship_range ShipType.Patrol 3,
        c / BOARD_SIZE = (ship_range ShipType.Patrol 3).headD 0 / BOARD_SIZE)
      ∧ (∀ c ∈ ship_range ShipType.Patrol 20,
        c % BOARD_SIZE
          = (ship_range ShipType.Patrol 20).headD 0 % BOARD_SIZE) :=
  ⟨((C9_half_split ShipType.Patrol 3 (by decide)).1 (by decide)).1,
   ((C9_half_split ShipType.Patrol 20 (by decide)).2 (by decide)).1⟩

/-- C7 counterexample: the claim that out-of-range placement indices make
the occupied-cells computation fail loudly is false: in the checked-`u8`
model (where a Rust panic is `none`), Patrol index 40 — the first
out-of-range index — silently yields the cell list `[20, 25]`, whose cell
25 is not even on the board. -/
theorem C7_out_of_range_cex :
    num_positions ShipType.Patrol ≤ 40
      ∧ ship_range_checked ShipType.Patrol 40 = some [20, 25]
      ∧ ¬ (25 < BOARD_SIZE * BOARD_SIZE) := by
  decide

/-- C7 amended: out-of-range `u8` placement indices for Patrol are not
rejected; `ship_range` silently returns an ordinary `ship_size`-length
cell list (no error is signalled). -/
theorem C7_out_of_range_silent :
    ∀ i, i < 256 → num_positions ShipType.Patrol ≤ i →
      (ship_range_checked ShipType.Patrol i).map List.length
        = some (ship_size ShipType.Patrol) := by
  decide

/-- Witness for the amended C7 at index 40. -/
theorem C7_out_of_range_silent_witness :
    (ship_range_checked ShipType.Patrol 40).map List.length
      = some (ship_size ShipType.Patrol) :=
  C7_out_of_range_silent 40 (by decide) (by decide)

/-- C8 counterexample: the claim that `apply_move` fails fast on an
out-of-board position is false: a miss at position 100 on the freshly
initialized store is silently ignored, returning the store unchanged. -/
theorem C8_out_of_range_pos_cex :
    ¬ (100 < BOARD_SIZE * BOARD_SIZE)
      ∧ apply_move init_positions (100, none) = init_positions := by
  exact ⟨by decide, by decide⟩

/-- C8 amended: `apply_move` performs no bounds check on the move's
position: a miss at an out-of-board position leaves every candidate list
unchanged (silently ignored) on any store whose candidate indices are in
range; no failure is reported. -/
theorem C8_out_of_range_pos_ignored (store : List (List Nat)) (pos : Nat)
    (hlen : store.length = NUM_SHIP_TYPES)
    (hwf : ∀ j, j < NUM_SHIP_TYPES →
      ∀ p ∈ store.getD j [], p < num_positions (typeOfIdx j))
    (hpos : BOARD_SIZE * BOARD_SIZE ≤ pos) :
    apply_move store (pos, none) = store := by
  show process_miss store pos = store
  apply List.ext_getElem?
  intro j
  rw [getElem?_process_miss]
  cases hsj : store[j]? with
  | none => rfl
  | some l =>
    have hjlt : j < store.length := by
      by_contra hge
      rw [List.getElem?_eq_none (by omega)] at hsj
      exact Option.noConfusion hsj
    have hl : store.getD j [] = l := by
      rw [List.getD_eq_getElem?_getD, hsj, Option.getD_some]
    simp only [Option.map_some']
    congr 1
    apply elimLoop_id
    intro x hx
    have hxr : x < num_positions (typeOfIdx j) := by
      apply hwf j (by omega) x
      rw [hl]; exact hx
    have hnm : ¬ pos ∈ ship_range (typeOfIdx j) x := by
      intro hmem
      have := ship_range_bound (typeOfIdx j) x hxr pos hmem
      omega
    cases hb : (ship_range (typeOfIdx j) x).contains pos with
    | false => rfl
    | true => exact absurd ((contains_iff_mem _ _).mp hb) hnm

/-- Witness for the amended C8: miss at position 100 on the initial
store. -/
theorem C8_out_of_range_pos_ignored_witness :
    apply_move init_positions (100, none) = init_positions :=
  C8_out_of_range_pos_ignored init_positions 100 (by decide) (by decide)
    (by decide)

